import Mathlib

/-!
The function `calculate_checksum` of `examples/src/blob/example_raw.c`.

A shallow embedding of the branch-dependent checksum routine of
`example_raw.c`.  The C function receives a pointer `data` and an
`unsigned int length`; here the memory behind the pointer is a list of bytes,
a read outside of it is a fault, and each of the three `for` loops is run with
an explicit budget of condition evaluations.  The machine state carries, next
to the `unsigned char checksum`, a record of what the run did (indices read,
loops entered, loop bodies executed, counter overflows), so that statements
about memory safety and iteration counts are statements about the run.
-/

namespace ExampleRaw

/-- An `unsigned char` object: a value in `[0, 255]`. -/
abbrev Byte := Fin 256

/-- `#define MAGIC_VALUE_1 0xDE` -/
def MAGIC_VALUE_1 : Nat := 0xDE

/-- `#define MAGIC_VALUE_2 0xAD` -/
def MAGIC_VALUE_2 : Nat := 0xAD

/-- Number of values of an `unsigned int` (32 bits on the ARM target). -/
def UINT_RANGE : Nat := 2 ^ 32

/-- Ways in which a run can fail to produce a checksum. -/
inductive Fault where
  /-- `data[i]` was evaluated with `i` outside of the buffer -/
  | outOfBounds (i : Nat)
  /-- the budget of loop-condition evaluations was used up -/
  | outOfFuel
  deriving DecidableEq, Repr

deriving instance DecidableEq for Except

/-- The three arms of the `if / else if / else` chain. -/
inductive Branch where
  /-- `length >= 1 && data[0] == MAGIC_VALUE_1` -/
  | magic1
  /-- `length >= 2 && data[1] == MAGIC_VALUE_2` -/
  | magic2
  /-- the final `else` -/
  | default
  deriving DecidableEq, Repr

/-- Machine state of a run: the local `checksum` and the record of the run. -/
structure State where
  /-- the local `unsigned char checksum` -/
  checksum : Nat
  /-- indices `i` of every evaluation of `data[i]`, in program order -/
  reads : List Nat
  /-- the arms whose `for` statement was started, in program order -/
  entered : List Branch
  /-- number of executions of a loop body -/
  iters : Nat
  /-- number of executions of `i++` that overflowed the `unsigned int` -/
  wraps : Nat
  deriving DecidableEq, Repr

/-- State after `unsigned char checksum = 0;`. -/
def State.init : State :=
  { checksum := 0, reads := [], entered := [], iters := 0, wraps := 0 }

/-- Evaluation of `data[i]`: the byte, promoted to `int`, and the read recorded. -/
def readByte (data : List Byte) (i : Nat) (s : State) : Except Fault (Nat × State) :=
  match data[i]? with
  | some b => .ok (b.val, { s with reads := s.reads ++ [i] })
  | none => .error (.outOfBounds i)

/-- Evaluation of `length >= k && data[idx] == magic`; `&&` evaluates its right
operand only when the left one holds. -/
def magicGuard (data : List Byte) (length k idx magic : Nat) (s : State) :
    Except Fault (Bool × State) :=
  if length ≥ k then
    match readByte data idx s with
    | .ok (b, s1) => .ok (b == magic, s1)
    | .error e => .error e
  else .ok (false, s)

/-- Evaluation of `i++` on an `unsigned int`. -/
def incr (i : Nat) (s : State) : Nat × State :=
  ((i + 1) % UINT_RANGE,
    if i + 1 < UINT_RANGE then s else { s with wraps := s.wraps + 1 })

/-- Evaluation of `for (unsigned int i = ...; cond i; i++) { checksum op= data[i]; }`
from counter value `i` on.  `cond` is the loop condition, `op` the binary
operator of the compound assignment (its result is converted back to
`unsigned char`).  Each evaluation of the condition costs one unit of fuel. -/
def forLoop (data : List Byte) (cond : Nat → Bool) (op : Nat → Nat → Nat) :
    Nat → Nat → State → Except Fault State
  | 0, _, _ => .error .outOfFuel
  | fuel + 1, i, s =>
    if cond i then
      match readByte data i s with
      | .ok (b, s1) =>
        let s2 := { s1 with checksum := op s1.checksum b % 256, iters := s1.iters + 1 }
        let (i3, s3) := incr i s2
        forLoop data cond op fuel i3 s3
      | .error e => .error e
    else .ok s

/-- Evaluation of `checksum += k;` on the `unsigned char checksum`. -/
def addOffset (k : Nat) (s : State) : State :=
  { s with checksum := (s.checksum + k) % 256 }

/-- Start of a `for` statement in arm `b`. -/
def enter (b : Branch) (s : State) : State :=
  { s with entered := s.entered ++ [b] }

/-- The body of `calculate_checksum`, every loop run with budget `fuel`. -/
def calculate_checksum_run (fuel : Nat) (data : List Byte) (length : Nat) :
    Except Fault State :=
  match magicGuard data length 1 0 MAGIC_VALUE_1 State.init with
  | .error e => .error e
  | .ok (true, s1) =>
    match forLoop data (fun i => decide (i < length) && decide (i < 4)) (· + ·) fuel 0
        (enter .magic1 s1) with
    | .ok s2 => .ok (addOffset 0x10 s2)
    | .error e => .error e
  | .ok (false, s1) =>
    match magicGuard data length 2 1 MAGIC_VALUE_2 s1 with
    | .error e => .error e
    | .ok (true, s2) =>
      match forLoop data (fun i => decide (i < length)) (· ^^^ ·) fuel 0
          (enter .magic2 s2) with
      | .ok s3 => .ok (addOffset 0x20 s3)
      | .error e => .error e
    | .ok (false, s2) =>
      forLoop data (fun i => decide (i < length)) (· + ·) fuel 0 (enter .default s2)

/-- The function `calculate_checksum`: the returned `unsigned char`.  An
`unsigned int` counter takes `UINT_RANGE` values, which bounds the number of
condition evaluations of a loop that ends. -/
def calculate_checksum (data : List Byte) (length : Nat) : Except Fault Nat :=
  match calculate_checksum_run UINT_RANGE data length with
  | .ok s => .ok s.checksum
  | .error e => .error e

/-! ## The loops in closed form -/

theorem readByte_of_lt (data : List Byte) (i : Nat) (s : State) (h : i < data.length) :
    readByte data i s = .ok ((data[i]).val, { s with reads := s.reads ++ [i] }) := by
  simp [readByte, List.getElem?_eq_getElem h]

/-- A loop whose condition is `i < n`, with `n` inside the buffer and inside the
range of the counter, ends; it folds the body over `data[i..n-1]`, reads exactly
the indices `i, ..., n-1`, runs its body `n - i` times and never overflows the
counter. -/
theorem forLoop_eq (data : List Byte) (cond : Nat → Bool) (op : Nat → Nat → Nat) (n : Nat)
    (hc : ∀ j, cond j = decide (j < n)) (hn : n ≤ data.length) (h32 : n < UINT_RANGE) :
    ∀ (fuel i : Nat) (s : State), i ≤ n → n - i < fuel →
      forLoop data cond op fuel i s = .ok
        { checksum :=
            ((data.drop i).take (n - i)).foldl (fun c b => op c b.val % 256) s.checksum
          reads := s.reads ++ List.range' i (n - i)
          entered := s.entered
          iters := s.iters + (n - i)
          wraps := s.wraps } := by
  intro fuel
  induction fuel with
  | zero => intro i s _ h; omega
  | succ fuel ih =>
    intro i s hi hf
    by_cases hlt : i < n
    · have hd : i < data.length := by omega
      have h1 : (i + 1) % UINT_RANGE = i + 1 := Nat.mod_eq_of_lt (by omega)
      have h2 : i + 1 < UINT_RANGE := by omega
      have h3 : n - i = (n - (i + 1)) + 1 := by omega
      rw [forLoop]
      simp only [hc, hlt, decide_True, if_true, readByte_of_lt data i s hd, incr, h1, h2]
      rw [ih (i + 1) _ (by omega) (by omega)]
      simp only [h3, List.drop_eq_getElem_cons hd, List.range'_succ, List.take_succ_cons, List.foldl_cons]
      simp only [List.append_assoc, List.singleton_append, Nat.add_assoc, Nat.add_comm 1 (n - (i + 1))]
    · have hin : i = n := by omega
      subst hin
      simp [forLoop, hc]

/-- The wrapping sum of the default loop and of the loop of arm 1 is the sum of
the bytes modulo 256. -/
theorem foldl_add_mod (l : List Byte) :
    ∀ c : Nat, c < 256 →
      l.foldl (fun c b => (fun x y => x + y) c b.val % 256) c = (c + (l.map Fin.val).sum) % 256 := by
  induction l with
  | nil => intro c hc; simp [Nat.mod_eq_of_lt hc]
  | cons b t ih =>
    intro c hc
    simp only [List.foldl_cons, List.map_cons, List.sum_cons]
    rw [ih _ (Nat.mod_lt _ (by decide))]
    omega

/-- The conversion to `unsigned char` after each `^=` is the identity: the XOR of
two bytes is a byte. -/
theorem foldl_xor_mod (l : List Byte) :
    ∀ c : Nat, c < 256 →
      l.foldl (fun c b => (fun x y => x ^^^ y) c b.val % 256) c
        = l.foldl (fun c b => c ^^^ b.val) c := by
  induction l with
  | nil => intro c _; rfl
  | cons b t ih =>
    intro c hc
    have hb : b.val < 2 ^ 8 := b.isLt
    have hx : c ^^^ b.val < 2 ^ 8 := Nat.xor_lt_two_pow (by simpa using hc) hb
    have hx2 : c ^^^ b.val < 256 := by simpa using hx
    simp only [List.foldl_cons, Nat.mod_eq_of_lt hx2]
    have := ih (c ^^^ b.val) hx2
    simpa using this

/-- The XOR of bytes is a byte. -/
theorem foldl_xor_lt (l : List Byte) :
    ∀ c : Nat, c < 256 → l.foldl (fun c b => c ^^^ b.val) c < 256 := by
  induction l with
  | nil => intro c hc; simpa using hc
  | cons b t ih =>
    intro c hc
    have hb : b.val < 2 ^ 8 := b.isLt
    have hx : c ^^^ b.val < 2 ^ 8 := Nat.xor_lt_two_pow (by simpa using hc) hb
    exact ih _ (by simpa using hx)

/-! ## The guards -/

theorem magicGuard_of_lt (data : List Byte) (length k idx magic : Nat) (s : State)
    (h : length < k) : magicGuard data length k idx magic s = .ok (false, s) := by
  simp [magicGuard, Nat.not_le.mpr h]

theorem magicGuard_of_ge (data : List Byte) (length k idx magic : Nat) (s : State)
    (h : k ≤ length) (hd : idx < data.length) :
    magicGuard data length k idx magic s
      = .ok ((data[idx]).val == magic, { s with reads := s.reads ++ [idx] }) := by
  simp [magicGuard, h, readByte_of_lt data idx s hd]

/-! ## The three arms in closed form -/

theorem getElem?_eq_some_byte {data : List Byte} {i : Nat} {b : Byte}
    (h : data[i]? = some b) : ∃ hd : i < data.length, data[i] = b := by
  rcases List.getElem?_eq_some.mp h with ⟨hd, hb⟩
  exact ⟨hd, hb⟩

/-- A byte other than `b` does not compare equal to the value of `b`. -/
theorem magic_ne_of_getElem?_ne {data : List Byte} {i : Nat} (b : Byte) (magic : Nat)
    (hm : b.val = magic) (hd : i < data.length) (h : data[i]? ≠ some b) :
    ((data[i]).val == magic) = false := by
  have hne : data[i] ≠ b := by
    intro h2; exact h (by rw [List.getElem?_eq_getElem hd, h2])
  have : (data[i]).val ≠ magic := fun h2 => hne (Fin.ext (h2.trans hm.symm))
  simpa using this

/-- Arm 1: `length >= 1` and `data[0] == 0xDE`. -/
theorem run_magic1 (fuel : Nat) (data : List Byte) (length : Nat)
    (h1 : 1 ≤ length) (hle : length ≤ data.length) (h0 : data[0]? = some 0xDE)
    (hf : min length 4 < fuel) :
    calculate_checksum_run fuel data length = .ok
      { checksum := (((data.take (min length 4)).map Fin.val).sum + 0x10) % 256
        reads := 0 :: List.range' 0 (min length 4)
        entered := [Branch.magic1]
        iters := min length 4
        wraps := 0 } := by
  obtain ⟨hd, hb⟩ := getElem?_eq_some_byte h0
  have hg := magicGuard_of_ge data length 1 0 MAGIC_VALUE_1 State.init h1 hd
  have hv : ((data[0]).val == MAGIC_VALUE_1) = true := by rw [hb]; decide
  rw [hv] at hg
  have hloop := forLoop_eq data (fun i => decide (i < length) && decide (i < 4)) (· + ·)
    (min length 4) (by intro j; simp [Nat.lt_min]) (by omega)
    (by have : (4 : Nat) < UINT_RANGE := by decide
        omega)
    fuel 0 (enter .magic1 { State.init with reads := State.init.reads ++ [0] })
    (Nat.zero_le _) (by omega)
  simp only [calculate_checksum_run, hg, hloop, addOffset]
  simp only [List.drop_zero, Nat.sub_zero, foldl_add_mod _ 0 (by decide), enter, State.init,
    Nat.zero_add, List.nil_append, List.singleton_append]
  congr 2
  omega

/-- Arm 2: `data[0] != 0xDE`, `length >= 2` and `data[1] == 0xAD`. -/
theorem run_magic2 (fuel : Nat) (data : List Byte) (length : Nat) (h32 : length < UINT_RANGE)
    (h2 : 2 ≤ length) (hle : length ≤ data.length) (h0 : data[0]? ≠ some 0xDE)
    (h1 : data[1]? = some 0xAD) (hf : length < fuel) :
    calculate_checksum_run fuel data length = .ok
      { checksum := ((data.take length).foldl (fun c b => c ^^^ b.val) 0 + 0x20) % 256
        reads := [0, 1] ++ List.range' 0 length
        entered := [Branch.magic2]
        iters := length
        wraps := 0 } := by
  have hd0 : 0 < data.length := by omega
  obtain ⟨hd1, hb1⟩ := getElem?_eq_some_byte h1
  have hg0 := magicGuard_of_ge data length 1 0 MAGIC_VALUE_1 State.init (by omega) hd0
  rw [magic_ne_of_getElem?_ne 0xDE MAGIC_VALUE_1 (by decide) hd0 h0] at hg0
  have hg1 := magicGuard_of_ge data length 2 1 MAGIC_VALUE_2
    { State.init with reads := State.init.reads ++ [0] } h2 hd1
  have hv1 : ((data[1]).val == MAGIC_VALUE_2) = true := by rw [hb1]; decide
  rw [hv1] at hg1
  have hloop := forLoop_eq data (fun i => decide (i < length)) (· ^^^ ·) length
    (fun _ => rfl) hle h32 fuel 0
    (enter .magic2 { State.init with reads := State.init.reads ++ [0] ++ [1] })
    (Nat.zero_le _) (by omega)
  simp only [calculate_checksum_run, hg0, hg1, hloop, addOffset]
  simp only [List.drop_zero, Nat.sub_zero, foldl_xor_mod _ 0 (by decide), enter, State.init,
    Nat.zero_add, List.nil_append, List.singleton_append, List.cons_append]

/-- The default arm: neither guard holds. -/
theorem run_default (fuel : Nat) (data : List Byte) (length : Nat) (h32 : length < UINT_RANGE)
    (hle : length ≤ data.length)
    (hn1 : ¬ (1 ≤ length ∧ data[0]? = some 0xDE))
    (hn2 : ¬ (2 ≤ length ∧ data[1]? = some 0xAD)) (hf : length < fuel) :
    calculate_checksum_run fuel data length = .ok
      { checksum := ((data.take length).map Fin.val).sum % 256
        reads := (if 1 ≤ length then [0] else []) ++ (if 2 ≤ length then [1] else [])
          ++ List.range' 0 length
        entered := [Branch.default]
        iters := length
        wraps := 0 } := by
  have hloop := fun s => forLoop_eq data (fun i => decide (i < length)) (· + ·) length
    (fun _ => rfl) hle h32 fuel 0 (enter .default s) (Nat.zero_le _) (by omega)
  by_cases h1 : 1 ≤ length
  · have hd0 : 0 < data.length := by omega
    have hg0 := magicGuard_of_ge data length 1 0 MAGIC_VALUE_1 State.init h1 hd0
    rw [magic_ne_of_getElem?_ne 0xDE MAGIC_VALUE_1 (by decide) hd0
      (fun h => hn1 ⟨h1, h⟩)] at hg0
    by_cases h2 : 2 ≤ length
    · have hd1 : 1 < data.length := by omega
      have hg1 := magicGuard_of_ge data length 2 1 MAGIC_VALUE_2
        { State.init with reads := State.init.reads ++ [0] } h2 hd1
      rw [magic_ne_of_getElem?_ne 0xAD MAGIC_VALUE_2 (by decide) hd1
        (fun h => hn2 ⟨h2, h⟩)] at hg1
      simp only [calculate_checksum_run, hg0, hg1, hloop]
      simp [foldl_add_mod _ 0 (by decide), enter, State.init, h1, h2]
    · have hg1 := magicGuard_of_lt data length 2 1 MAGIC_VALUE_2
        { State.init with reads := State.init.reads ++ [0] } (by omega)
      simp only [calculate_checksum_run, hg0, hg1, hloop]
      simp [foldl_add_mod _ 0 (by decide), enter, State.init, h1, h2]
  · have hg0 := magicGuard_of_lt data length 1 0 MAGIC_VALUE_1 State.init (by omega)
    have hg1 := magicGuard_of_lt data length 2 1 MAGIC_VALUE_2 State.init (by omega)
    have h2 : ¬ 2 ≤ length := by omega
    simp only [calculate_checksum_run, hg0, hg1, hloop]
    simp [foldl_add_mod _ 0 (by decide), enter, State.init, h1, h2]

/-- The returned byte is the `checksum` of the final state of the run. -/
theorem calculate_checksum_of_run {data : List Byte} {length : Nat} {s : State}
    (h : calculate_checksum_run UINT_RANGE data length = .ok s) :
    calculate_checksum data length = .ok s.checksum := by
  simp [calculate_checksum, h]

theorem min_four_lt_UINT_RANGE (length : Nat) : min length 4 < UINT_RANGE := by
  have : (4 : Nat) < UINT_RANGE := by decide
  omega

/-! ## Every run on a valid `(data, length)` pair -/

/-- Summary of the run on a valid pair: it ends in a state that does not depend
on the budget, in exactly one arm, with the iteration count of that arm, without
counter overflow, having read only indices below `length`. -/
theorem run_summary (data : List Byte) (length : Nat) (h32 : length < UINT_RANGE)
    (hle : length ≤ data.length) :
    ∃ (s : State) (b : Branch),
      (∀ fuel, length < fuel → calculate_checksum_run fuel data length = .ok s) ∧
      s.entered = [b] ∧
      (b = Branch.magic1 ↔ (1 ≤ length ∧ data[0]? = some 0xDE)) ∧
      s.iters = (if b = Branch.magic1 then min length 4 else length) ∧
      s.wraps = 0 ∧
      (∀ i ∈ s.reads, i < length) ∧
      s.checksum < 256 := by
  by_cases c1 : 1 ≤ length ∧ data[0]? = some 0xDE
  · refine ⟨_, Branch.magic1, fun fuel hf => run_magic1 fuel data length c1.1 hle c1.2 (by omega),
      rfl, by simp [c1], by simp, rfl, ?_, Nat.mod_lt _ (by decide)⟩
    intro i hi
    simp only [List.mem_cons, List.mem_range'_1] at hi
    omega
  · by_cases c2 : 2 ≤ length ∧ data[1]? = some 0xAD
    · have h0 : data[0]? ≠ some 0xDE := fun h => c1 ⟨by omega, h⟩
      refine ⟨_, Branch.magic2,
        fun fuel hf => run_magic2 fuel data length h32 c2.1 hle h0 c2.2 hf,
        rfl, by simp [c1], by simp, rfl, ?_, Nat.mod_lt _ (by decide)⟩
      intro i hi
      simp only [List.mem_append, List.mem_cons, List.mem_range'_1, List.mem_singleton,
        List.not_mem_nil, or_false] at hi
      omega
    · refine ⟨_, Branch.default,
        fun fuel hf => run_default fuel data length h32 hle c1 c2 hf,
        rfl, by simp [c1], by simp, rfl, ?_, Nat.mod_lt _ (by decide)⟩
      intro i hi
      simp only [List.mem_append, List.mem_range'_1] at hi
      rcases hi with (hi | hi) | hi
      · split at hi
        · simp at hi; omega
        · simp at hi
      · split at hi
        · simp at hi; omega
        · simp at hi
      · omega

/-! ## Dependence on the buffer -/

/-- A loop reads the buffer only where its condition holds. -/
theorem forLoop_congr (d1 d2 : List Byte) (cond : Nat → Bool) (op : Nat → Nat → Nat)
    (h : ∀ j, cond j = true → d1[j]? = d2[j]?) :
    ∀ (fuel i : Nat) (s : State),
      forLoop d1 cond op fuel i s = forLoop d2 cond op fuel i s := by
  intro fuel
  induction fuel with
  | zero => intro i s; rfl
  | succ fuel ih =>
    intro i s
    by_cases hc : cond i = true
    · simp only [forLoop, hc, if_true, readByte, h i hc]
      cases d2[i]? with
      | none => rfl
      | some b => exact ih _ _
    · simp [forLoop, hc]

/-- A guard reads the buffer only when `length >= k`. -/
theorem magicGuard_congr (d1 d2 : List Byte) (length k idx magic : Nat) (s : State)
    (h : k ≤ length → d1[idx]? = d2[idx]?) :
    magicGuard d1 length k idx magic s = magicGuard d2 length k idx magic s := by
  by_cases hk : k ≤ length
  · simp [magicGuard, hk, readByte, h hk]
  · simp [magicGuard, hk]

/-- Two buffers that agree below `length` give the same run. -/
theorem run_congr (fuel : Nat) (d1 d2 : List Byte) (length : Nat)
    (h : ∀ i, i < length → d1[i]? = d2[i]?) :
    calculate_checksum_run fuel d1 length = calculate_checksum_run fuel d2 length := by
  have hl1 := forLoop_congr d1 d2 (fun i => decide (i < length) && decide (i < 4)) (· + ·)
    (by intro j hj; simp at hj; exact h j hj.1) fuel 0
  have hl2 := fun op => forLoop_congr d1 d2 (fun i => decide (i < length)) op
    (by intro j hj; simp at hj; exact h j hj) fuel 0
  have hg1 := magicGuard_congr d1 d2 length 1 0 MAGIC_VALUE_1 State.init
    (fun hk => h 0 (by omega))
  have hg2 := fun s => magicGuard_congr d1 d2 length 2 1 MAGIC_VALUE_2 s
    (fun hk => h 1 (by omega))
  simp only [calculate_checksum_run, hg1, hg2, hl1, hl2]

/-- Two buffers that agree below `n` have the same first `n` bytes. -/
theorem take_eq_of_agree (d1 d2 : List Byte) (n : Nat)
    (h : ∀ i, i < n → d1[i]? = d2[i]?) : d1.take n = d2.take n := by
  apply List.ext_getElem?
  intro i
  by_cases hi : i < n
  · simp [List.getElem?_take, hi, h i hi]
  · simp [List.getElem?_take, hi]

/-! ## The contract of `calculate_checksum` -/

/-- Claim C1 (arm 1).  For `1 ≤ length ≤ |data|` and `data[0] = 0xDE`, whatever the
other bytes are (`data[1]` may be `0xAD`: the first guard wins),
`calculate_checksum data length` returns the sum of the first `min length 4`
bytes plus `0x10`, modulo 256. -/
theorem calculate_checksum_branch1 (data : List Byte) (length : Nat)
    (h1 : 1 ≤ length) (hle : length ≤ data.length) (h0 : data[0]? = some 0xDE) :
    calculate_checksum data length
      = .ok ((((data.take (min length 4)).map Fin.val).sum + 0x10) % 256) :=
  calculate_checksum_of_run
    (run_magic1 UINT_RANGE data length h1 hle h0 (min_four_lt_UINT_RANGE length))

/-- Scenario A, and the same buffer with `0xAD` as second byte: both take arm 1. -/
theorem calculate_checksum_branch1_witness :
    (1 ≤ 4 ∧ 4 ≤ ([0xDE, 0x01, 0x02, 0x03] : List Byte).length
      ∧ ([0xDE, 0x01, 0x02, 0x03] : List Byte)[0]? = some 0xDE
      ∧ calculate_checksum [0xDE, 0x01, 0x02, 0x03] 4 = .ok 0xF4)
    ∧ calculate_checksum [0xDE, 0xAD, 0x02, 0x03] 4 = .ok 0xA0 :=
  ⟨⟨by decide, by decide, by decide,
      (calculate_checksum_branch1 [0xDE, 0x01, 0x02, 0x03] 4
        (by decide) (by decide) (by decide)).trans (by decide)⟩,
    (calculate_checksum_branch1 [0xDE, 0xAD, 0x02, 0x03] 4
      (by decide) (by decide) (by decide)).trans (by decide)⟩

/-- Claim C2 (arm 2).  For `2 ≤ length ≤ |data|` (`length` an `unsigned int`),
`data[0] ≠ 0xDE` and `data[1] = 0xAD`, `calculate_checksum data length` returns
the XOR of the first `length` bytes plus `0x20`, modulo 256. -/
theorem calculate_checksum_branch2 (data : List Byte) (length : Nat)
    (h32 : length < UINT_RANGE) (h2 : 2 ≤ length) (hle : length ≤ data.length)
    (h0 : data[0]? ≠ some 0xDE) (h1 : data[1]? = some 0xAD) :
    calculate_checksum data length
      = .ok (((data.take length).foldl (fun c b => c ^^^ b.val) 0 + 0x20) % 256) :=
  calculate_checksum_of_run (run_magic2 UINT_RANGE data length h32 h2 hle h0 h1 h32)

/-- The boundary case `data = [0xFF, 0xAD]`, `length = 2` gives `0x72`. -/
theorem calculate_checksum_branch2_witness :
    2 < UINT_RANGE ∧ 2 ≤ 2 ∧ 2 ≤ ([0xFF, 0xAD] : List Byte).length
      ∧ ([0xFF, 0xAD] : List Byte)[0]? ≠ some 0xDE
      ∧ ([0xFF, 0xAD] : List Byte)[1]? = some 0xAD
      ∧ calculate_checksum [0xFF, 0xAD] 2 = .ok 0x72 :=
  ⟨by decide, by decide, by decide, by decide, by decide,
    (calculate_checksum_branch2 [0xFF, 0xAD] 2
      (by decide) (by decide) (by decide) (by decide) (by decide)).trans (by decide)⟩

/-- Claim C3 (default arm).  For `length ≤ |data|` (`length` an `unsigned int`)
such that neither `length ≥ 1 ∧ data[0] = 0xDE` nor `length ≥ 2 ∧ data[1] = 0xAD`
holds, `calculate_checksum data length` returns the sum of the first `length`
bytes modulo 256, with no offset. -/
theorem calculate_checksum_branch3 (data : List Byte) (length : Nat)
    (h32 : length < UINT_RANGE) (hle : length ≤ data.length)
    (hn1 : ¬ (1 ≤ length ∧ data[0]? = some 0xDE))
    (hn2 : ¬ (2 ≤ length ∧ data[1]? = some 0xAD)) :
    calculate_checksum data length = .ok (((data.take length).map Fin.val).sum % 256) :=
  calculate_checksum_of_run (run_default UINT_RANGE data length h32 hle hn1 hn2 h32)

/-- Scenario C: `data = [0x01, 0x02, 0x03]`, `length = 3` gives `0x06`. -/
theorem calculate_checksum_branch3_witness :
    3 < UINT_RANGE ∧ 3 ≤ ([0x01, 0x02, 0x03] : List Byte).length
      ∧ ¬ (1 ≤ 3 ∧ ([0x01, 0x02, 0x03] : List Byte)[0]? = some 0xDE)
      ∧ ¬ (2 ≤ 3 ∧ ([0x01, 0x02, 0x03] : List Byte)[1]? = some 0xAD)
      ∧ calculate_checksum [0x01, 0x02, 0x03] 3 = .ok 0x06 :=
  ⟨by decide, by decide, by decide, by decide,
    (calculate_checksum_branch3 [0x01, 0x02, 0x03] 3
      (by decide) (by decide) (by decide) (by decide)).trans (by decide)⟩

/-- Claim C4 (scenario B) as amended.  On `data = [0x00, 0xAD, 0x01, 0x02]`,
`length = 4` the run takes arm 2 (after reading `data[0]` and `data[1]` in the
guards), the XOR loop leaves `0xAE` in `checksum`, and `calculate_checksum`
returns `0xCE`. -/
theorem calculate_checksum_scenario_B :
    calculate_checksum_run UINT_RANGE [0x00, 0xAD, 0x01, 0x02] 4
        = .ok { checksum := 0xCE, reads := [0, 1, 0, 1, 2, 3], entered := [Branch.magic2],
                iters := 4, wraps := 0 }
    ∧ forLoop [0x00, 0xAD, 0x01, 0x02] (fun i => decide (i < 4)) (· ^^^ ·) UINT_RANGE 0
          (enter Branch.magic2 { State.init with reads := [0, 1] })
        = .ok { checksum := 0xAE, reads := [0, 1, 0, 1, 2, 3], entered := [Branch.magic2],
                iters := 4, wraps := 0 }
    ∧ calculate_checksum [0x00, 0xAD, 0x01, 0x02] 4 = .ok 0xCE := by
  decide

/-- Claim C4 as stated fails: on scenario B the XOR loop does not leave `0xAC` in
`checksum` and `calculate_checksum` does not return `0xCC`. -/
theorem scenario_B_stated_values_fail :
    forLoop [0x00, 0xAD, 0x01, 0x02] (fun i => decide (i < 4)) (· ^^^ ·) UINT_RANGE 0
          (enter Branch.magic2 { State.init with reads := [0, 1] })
        ≠ .ok { checksum := 0xAC, reads := [0, 1, 0, 1, 2, 3], entered := [Branch.magic2],
                iters := 4, wraps := 0 }
    ∧ (([0x00, 0xAD, 0x01, 0x02] : List Byte).take 4).foldl (fun c b => c ^^^ b.val) 0 ≠ 0xAC
    ∧ calculate_checksum [0x00, 0xAD, 0x01, 0x02] 4 ≠ .ok 0xCC := by
  decide

/-- Claim C5 (no out-of-bounds read).  For `length ≤ |data|` (`length` an
`unsigned int`) the run ends without a fault, every index at which it evaluated
`data[i]` is below `length`, and `calculate_checksum` returns the final
`checksum`, a byte. -/
theorem calculate_checksum_reads_below_length (data : List Byte) (length : Nat)
    (h32 : length < UINT_RANGE) (hle : length ≤ data.length) :
    ∃ s : State,
      calculate_checksum_run UINT_RANGE data length = .ok s ∧
      (∀ i ∈ s.reads, i < length) ∧
      calculate_checksum data length = .ok s.checksum ∧
      s.checksum < 256 := by
  obtain ⟨s, _, hrun, _, _, _, _, hreads, hbyte⟩ := run_summary data length h32 hle
  exact ⟨s, hrun UINT_RANGE h32, hreads, calculate_checksum_of_run (hrun UINT_RANGE h32), hbyte⟩

/-- A buffer of four bytes of which only two may be read. -/
theorem calculate_checksum_reads_below_length_witness :
    2 < UINT_RANGE ∧ 2 ≤ ([0x07, 0xAD, 0x01, 0x02] : List Byte).length ∧
    ∃ s : State,
      calculate_checksum_run UINT_RANGE [0x07, 0xAD, 0x01, 0x02] 2 = .ok s ∧
      (∀ i ∈ s.reads, i < 2) ∧
      calculate_checksum [0x07, 0xAD, 0x01, 0x02] 2 = .ok s.checksum ∧
      s.checksum < 256 :=
  ⟨by decide, by decide,
    calculate_checksum_reads_below_length [0x07, 0xAD, 0x01, 0x02] 2 (by decide) (by decide)⟩

/-- Claim C6 (the result depends only on `length` and the first `length` bytes).
Two buffers that agree at every index below `length`, the first of at least
`length` bytes (so the second too) and `length` an `unsigned int`, make
`calculate_checksum` return the same byte; bytes at index `length` and beyond
have no influence. -/
theorem calculate_checksum_depends_on_prefix (d1 d2 : List Byte) (length : Nat)
    (h32 : length < UINT_RANGE) (hle1 : length ≤ d1.length)
    (h : ∀ i, i < length → d1[i]? = d2[i]?) :
    ∃ v : Nat, calculate_checksum d1 length = .ok v ∧ calculate_checksum d2 length = .ok v ∧
      calculate_checksum d1 length = calculate_checksum d2 length := by
  obtain ⟨s, _, hrun, _, _, _, _, _, _⟩ := run_summary d1 length h32 hle1
  have h1 := hrun UINT_RANGE h32
  have h2 := h1
  rw [run_congr UINT_RANGE d1 d2 length h] at h2
  exact ⟨s.checksum, calculate_checksum_of_run h1, calculate_checksum_of_run h2,
    (calculate_checksum_of_run h1).trans (calculate_checksum_of_run h2).symm⟩

/-- With `length = 1`, a `0xAD` at index 1 has no influence. -/
theorem calculate_checksum_depends_on_prefix_witness :
    1 < UINT_RANGE ∧ 1 ≤ ([0x05, 0xAD] : List Byte).length
      ∧ 1 ≤ ([0x05, 0x00, 0x09] : List Byte).length
      ∧ (∀ i, i < 1 → ([0x05, 0xAD] : List Byte)[i]? = ([0x05, 0x00, 0x09] : List Byte)[i]?)
      ∧ ∃ v : Nat, calculate_checksum [0x05, 0xAD] 1 = .ok v
          ∧ calculate_checksum [0x05, 0x00, 0x09] 1 = .ok v
          ∧ calculate_checksum [0x05, 0xAD] 1 = calculate_checksum [0x05, 0x00, 0x09] 1 :=
  have hagree : ∀ i, i < 1 →
      ([0x05, 0xAD] : List Byte)[i]? = ([0x05, 0x00, 0x09] : List Byte)[i]? := by
    intro i hi
    have : i = 0 := by omega
    subst this
    rfl
  ⟨by decide, by decide, by decide, hagree,
    calculate_checksum_depends_on_prefix [0x05, 0xAD] [0x05, 0x00, 0x09] 1
      (by decide) (by decide) hagree⟩

/-- Claim C7 (empty input).  For every buffer, `calculate_checksum data 0` returns
`0x00`: the run reads no byte, enters the default loop and executes its body
zero times. -/
theorem calculate_checksum_length_zero (data : List Byte) :
    calculate_checksum_run UINT_RANGE data 0
        = .ok { checksum := 0, reads := [], entered := [Branch.default], iters := 0,
                wraps := 0 }
    ∧ calculate_checksum data 0 = .ok 0x00 := by
  have h := run_default UINT_RANGE data 0 (by decide) (Nat.zero_le _)
    (by omega) (by omega) (by decide)
  simp only [List.take_zero, List.map_nil, List.sum_nil, Nat.zero_mod, Nat.not_succ_le_zero,
    if_false, List.range'_zero, List.append_nil] at h
  exact ⟨h, calculate_checksum_of_run h⟩

/-- Claim C8 (single byte).  For a buffer of at least one byte,
`calculate_checksum data 1` never enters arm 2: it returns `0xEE` when
`data[0] = 0xDE` and `data[0]` itself otherwise (also when `data[0] = 0xAD`, and
whatever `data[1]` is). -/
theorem calculate_checksum_length_one (data : List Byte) (h : 1 ≤ data.length) :
    ∃ s : State,
      calculate_checksum_run UINT_RANGE data 1 = .ok s ∧
      Branch.magic2 ∉ s.entered ∧
      calculate_checksum data 1
        = .ok (if data[0] = (0xDE : Byte) then 0xEE else (data[0]).val) := by
  have h32 : 1 < UINT_RANGE := by decide
  have htake : data.take 1 = [data[0]] := by
    cases data with
    | nil => simp at h
    | cons b t => simp
  by_cases hb : data[0] = (0xDE : Byte)
  · have h0 : data[0]? = some 0xDE := by rw [List.getElem?_eq_getElem (by omega), hb]
    have hrun := run_magic1 UINT_RANGE data 1 (Nat.le_refl 1) h h0 (by decide)
    refine ⟨_, hrun, by simp, ?_⟩
    rw [calculate_checksum_of_run hrun]
    have hmin : min 1 4 = 1 := by decide
    simp only [hmin, htake, hb, if_true, List.map_cons, List.map_nil, List.sum_cons,
      List.sum_nil]
    rfl
  · have hn1 : ¬ (1 ≤ 1 ∧ data[0]? = some 0xDE) := by
      rintro ⟨_, h0⟩
      rw [List.getElem?_eq_getElem (by omega)] at h0
      exact hb (Option.some.inj h0)
    have hrun := run_default UINT_RANGE data 1 h32 h hn1 (by omega) h32
    refine ⟨_, hrun, by simp, ?_⟩
    rw [calculate_checksum_of_run hrun]
    simp only [htake, List.map_cons, List.map_nil, List.sum_cons, List.sum_nil, Nat.add_zero,
      hb, if_false]
    congr 1
    exact Nat.mod_eq_of_lt (data[0]).isLt

/-- Scenario E with a trailing `0xAD`: only byte 0 counts, the result is `0xEE`. -/
theorem calculate_checksum_length_one_witness :
    1 ≤ ([0xDE, 0xAD] : List Byte).length ∧
    ∃ s : State,
      calculate_checksum_run UINT_RANGE [0xDE, 0xAD] 1 = .ok s ∧
      Branch.magic2 ∉ s.entered ∧
      calculate_checksum [0xDE, 0xAD] 1 = .ok 0xEE :=
  ⟨by decide, calculate_checksum_length_one [0xDE, 0xAD] (by decide)⟩

/-- Claim C9 (termination with bounded iteration).  For `length ≤ |data|`
(`length` an `unsigned int`) the run ends, in the same state for every budget
above `length`, and `calculate_checksum` returns; exactly one of the three loops
is entered; its body runs exactly `min length 4` times (so at most 4 times) in
arm 1, which is taken exactly when `length ≥ 1` and `data[0] = 0xDE`, and exactly
`length` times in arm 2 and in the default arm; the counter never overflows. -/
theorem calculate_checksum_terminates (data : List Byte) (length : Nat)
    (h32 : length < UINT_RANGE) (hle : length ≤ data.length) :
    ∃ (s : State) (b : Branch),
      (∀ fuel, length < fuel → calculate_checksum_run fuel data length = .ok s) ∧
      calculate_checksum data length = .ok s.checksum ∧
      s.entered = [b] ∧
      (b = Branch.magic1 ↔ (1 ≤ length ∧ data[0]? = some 0xDE)) ∧
      s.iters = (if b = Branch.magic1 then min length 4 else length) ∧
      (b = Branch.magic1 → s.iters ≤ 4) ∧
      s.iters ≤ length ∧
      s.wraps = 0 := by
  obtain ⟨s, b, hrun, hent, hb, hit, hw, _, _⟩ := run_summary data length h32 hle
  refine ⟨s, b, hrun, calculate_checksum_of_run (hrun UINT_RANGE h32), hent, hb, hit, ?_, ?_, hw⟩
  · intro h1
    rw [hit, if_pos h1]
    exact Nat.min_le_right _ _
  · rw [hit]
    split
    · exact Nat.min_le_left _ _
    · exact Nat.le_refl _

/-- A six-byte buffer starting with `0xDE`: one loop, four iterations. -/
theorem calculate_checksum_terminates_witness :
    6 < UINT_RANGE ∧ 6 ≤ ([0xDE, 1, 2, 3, 4, 5] : List Byte).length ∧
    ∃ (s : State) (b : Branch),
      (∀ fuel, 6 < fuel → calculate_checksum_run fuel [0xDE, 1, 2, 3, 4, 5] 6 = .ok s) ∧
      calculate_checksum [0xDE, 1, 2, 3, 4, 5] 6 = .ok s.checksum ∧
      s.entered = [b] ∧
      (b = Branch.magic1 ↔ (1 ≤ 6 ∧ ([0xDE, 1, 2, 3, 4, 5] : List Byte)[0]? = some 0xDE)) ∧
      s.iters = (if b = Branch.magic1 then min 6 4 else 6) ∧
      (b = Branch.magic1 → s.iters ≤ 4) ∧
      s.iters ≤ 6 ∧
      s.wraps = 0 :=
  ⟨by decide, by decide,
    calculate_checksum_terminates [0xDE, 1, 2, 3, 4, 5] 6 (by decide) (by decide)⟩

/-- Claim C10 (arm 1 ignores everything after the fourth byte).  For
`data[0] = 0xDE` and `4 ≤ length ≤ |data|`, `calculate_checksum data length`
returns the byte that `calculate_checksum data 4` returns; and so does
`calculate_checksum data2 length2` for every buffer `data2` that agrees with
`data` at the indices below 4 and every `length2` with `4 ≤ length2 ≤ |data2|`. -/
theorem calculate_checksum_ignores_tail (data : List Byte) (length : Nat)
    (h0 : data[0]? = some 0xDE) (h4 : 4 ≤ length) (hle : length ≤ data.length) :
    ∃ v : Nat,
      calculate_checksum data 4 = .ok v ∧
      calculate_checksum data length = .ok v ∧
      calculate_checksum data length = calculate_checksum data 4 ∧
      ∀ (data2 : List Byte) (length2 : Nat), 4 ≤ length2 → length2 ≤ data2.length →
        (∀ i, i < 4 → data2[i]? = data[i]?) →
        calculate_checksum data2 length2 = .ok v := by
  have hA := calculate_checksum_of_run
    (run_magic1 UINT_RANGE data 4 (by decide) (by omega) h0 (min_four_lt_UINT_RANGE 4))
  have hB := calculate_checksum_of_run
    (run_magic1 UINT_RANGE data length (by omega) hle h0 (min_four_lt_UINT_RANGE length))
  simp only [] at hA hB
  have hmin : ∀ n, 4 ≤ n → min n 4 = 4 := fun n hn => Nat.min_eq_right hn
  rw [hmin 4 (Nat.le_refl 4)] at hA
  rw [hmin length h4] at hB
  refine ⟨_, hA, hB, hB.trans hA.symm, ?_⟩
  intro data2 length2 h42 hle2 hagree
  have h02 : data2[0]? = some 0xDE := by rw [hagree 0 (by decide)]; exact h0
  have hC := calculate_checksum_of_run
    (run_magic1 UINT_RANGE data2 length2 (by omega) hle2 h02 (min_four_lt_UINT_RANGE length2))
  simp only [] at hC
  rw [hmin length2 h42, take_eq_of_agree data2 data 4 hagree] at hC
  exact hC

/-- A buffer of six bytes starting with `0xDE`, with `length = 6`; bytes 4 and 5
may be replaced and `length2` may be 4, 5 or 6. -/
theorem calculate_checksum_ignores_tail_witness :
    ([0xDE, 0x01, 0x02, 0x03, 0x44, 0x55] : List Byte)[0]? = some 0xDE ∧ 4 ≤ 6
      ∧ 6 ≤ ([0xDE, 0x01, 0x02, 0x03, 0x44, 0x55] : List Byte).length
      ∧ ∃ v : Nat,
          calculate_checksum [0xDE, 0x01, 0x02, 0x03, 0x44, 0x55] 4 = .ok v ∧
          calculate_checksum [0xDE, 0x01, 0x02, 0x03, 0x44, 0x55] 6 = .ok v ∧
          calculate_checksum [0xDE, 0x01, 0x02, 0x03, 0x44, 0x55] 6
            = calculate_checksum [0xDE, 0x01, 0x02, 0x03, 0x44, 0x55] 4 ∧
          ∀ (data2 : List Byte) (length2 : Nat), 4 ≤ length2 → length2 ≤ data2.length →
            (∀ i, i < 4 → data2[i]? = ([0xDE, 0x01, 0x02, 0x03, 0x44, 0x55] : List Byte)[i]?) →
            calculate_checksum data2 length2 = .ok v :=
  ⟨by decide, by decide, by decide,
    calculate_checksum_ignores_tail [0xDE, 0x01, 0x02, 0x03, 0x44, 0x55] 6
      (by decide) (by decide) (by decide)⟩

/-! ## Changing, appending and reordering bytes -/

/-- Replacing one byte moves the sum by the difference of the two bytes. -/
theorem sum_set (l : List Byte) :
    ∀ (i : Nat) (b : Byte) (hi : i < l.length),
      ((l.set i b).map Fin.val).sum + (l[i]).val = (l.map Fin.val).sum + b.val := by
  induction l with
  | nil => intro i b hi; simp at hi
  | cons x t ih =>
    intro i b hi
    cases i with
    | zero => simp only [List.set_cons_zero, List.map_cons, List.sum_cons, List.getElem_cons_zero]; omega
    | succ j =>
      have hj : j < t.length := by simpa using hi
      have := ih j b hj
      simp only [List.set_cons_succ, List.map_cons, List.sum_cons, List.getElem_cons_succ]
      omega

/-- The XOR loop is injective in the value it starts from. -/
theorem foldl_xor_injective (l : List Byte) :
    ∀ c1 c2 : Nat, l.foldl (fun c b => c ^^^ b.val) c1 = l.foldl (fun c b => c ^^^ b.val) c2 →
      c1 = c2 := by
  induction l with
  | nil => intro c1 c2 h; simpa using h
  | cons x t ih =>
    intro c1 c2 h
    exact Nat.xor_left_inj.mp (ih _ _ (by simpa using h))

/-- Replacing one byte by a different one changes the XOR of the bytes. -/
theorem foldl_xor_set_ne (l : List Byte) :
    ∀ (i : Nat) (b : Byte) (c : Nat) (hi : i < l.length), l[i] ≠ b →
      (l.set i b).foldl (fun c b => c ^^^ b.val) c ≠ l.foldl (fun c b => c ^^^ b.val) c := by
  induction l with
  | nil => intro i b c hi; simp at hi
  | cons x t ih =>
    intro i b c hi hne
    cases i with
    | zero =>
      intro h
      have h1 := foldl_xor_injective t _ _ (by simpa using h)
      have h2 : b.val = x.val := Nat.xor_right_inj.mp h1
      exact hne (Fin.ext h2.symm)
    | succ j =>
      have hj : j < t.length := by simpa using hi
      simpa using ih j b (c ^^^ x.val) hj (by simpa using hne)

/-- Replacing a byte inside the summed range by a different one changes the
wrapping sum, whatever offset is added afterwards. -/
theorem sum_take_set_mod_ne (data : List Byte) (m i k : Nat) (b : Byte)
    (hi : i < m) (hm : m ≤ data.length) (hne : data[i]? ≠ some b) :
    ((((data.set i b).take m).map Fin.val).sum + k) % 256
      ≠ (((data.take m).map Fin.val).sum + k) % 256 := by
  have hid : i < data.length := by omega
  have hit : i < (data.take m).length := by simp; omega
  have hget : (data.take m)[i] = data[i] := by simp
  have hval : (data[i]).val ≠ b.val := by
    intro h
    exact hne (by rw [List.getElem?_eq_getElem hid, Fin.ext h])
  have hsum := sum_set (data.take m) i b hit
  rw [hget] at hsum
  rw [List.set_take]
  have h1 := (data[i]).isLt
  have h2 := b.isLt
  omega

/-- Replacing a byte inside the XORed range by a different one changes the
result of arm 2, whatever offset is added afterwards. -/
theorem xor_take_set_mod_ne (data : List Byte) (m i k : Nat) (b : Byte)
    (hi : i < m) (hm : m ≤ data.length) (hne : data[i]? ≠ some b) :
    (((data.set i b).take m).foldl (fun c b => c ^^^ b.val) 0 + k) % 256
      ≠ ((data.take m).foldl (fun c b => c ^^^ b.val) 0 + k) % 256 := by
  have hid : i < data.length := by omega
  have hit : i < (data.take m).length := by simp; omega
  have hget : (data.take m)[i] = data[i] := by simp
  have hne2 : (data.take m)[i] ≠ b := by
    rw [hget]
    intro h
    exact hne (by rw [List.getElem?_eq_getElem hid, h])
  have hx := foldl_xor_set_ne (data.take m) i b 0 hit hne2
  rw [List.set_take]
  have h1 := foldl_xor_lt ((data.take m).set i b) 0 (by decide)
  have h2 := foldl_xor_lt (data.take m) 0 (by decide)
  omega

/-- Claim C11 (single-byte change detection).  For `length ≤ |data|` (`length` an
`unsigned int`), an index `i` with `2 ≤ i < length`, and `i < 4` when
`data[0] = 0xDE`, and a byte `b` other than `data[i]`: `calculate_checksum`
returns a byte on `data` and on `data` with `data[i]` replaced by `b`, and the
two bytes differ. -/
theorem calculate_checksum_detects_change (data : List Byte) (length i : Nat) (b : Byte)
    (h32 : length < UINT_RANGE) (hle : length ≤ data.length)
    (hi2 : 2 ≤ i) (hil : i < length) (hi4 : data[0]? = some 0xDE → i < 4)
    (hb : data[i]? ≠ some b) :
    ∃ v w : Nat,
      calculate_checksum data length = .ok v ∧
      calculate_checksum (data.set i b) length = .ok w ∧
      v ≠ w := by
  have hle2 : length ≤ (data.set i b).length := by simpa using hle
  have e0 : (data.set i b)[0]? = data[0]? := List.getElem?_set_ne (by omega)
  have e1 : (data.set i b)[1]? = data[1]? := List.getElem?_set_ne (by omega)
  by_cases c1 : 1 ≤ length ∧ data[0]? = some 0xDE
  · have hA := calculate_checksum_of_run (run_magic1 UINT_RANGE data length c1.1 hle c1.2
      (min_four_lt_UINT_RANGE length))
    have hB := calculate_checksum_of_run (run_magic1 UINT_RANGE (data.set i b) length c1.1 hle2
      (e0.trans c1.2) (min_four_lt_UINT_RANGE length))
    refine ⟨_, _, hA, hB, ?_⟩
    have hi4 := hi4 c1.2
    exact (sum_take_set_mod_ne data (min length 4) i 0x10 b (by omega) (by omega) hb).symm
  · by_cases c2 : 2 ≤ length ∧ data[1]? = some 0xAD
    · have h0 : data[0]? ≠ some 0xDE := fun h => c1 ⟨by omega, h⟩
      have hA := calculate_checksum_of_run (run_magic2 UINT_RANGE data length h32 c2.1 hle
        h0 c2.2 h32)
      have hB := calculate_checksum_of_run (run_magic2 UINT_RANGE (data.set i b) length h32
        c2.1 hle2 (by rw [e0]; exact h0) (e1.trans c2.2) h32)
      refine ⟨_, _, hA, hB, ?_⟩
      exact (xor_take_set_mod_ne data length i 0x20 b hil hle hb).symm
    · have hA := calculate_checksum_of_run (run_default UINT_RANGE data length h32 hle c1 c2 h32)
      have hB := calculate_checksum_of_run (run_default UINT_RANGE (data.set i b) length h32
        hle2 (by rw [e0]; exact c1) (by rw [e1]; exact c2) h32)
      refine ⟨_, _, hA, hB, ?_⟩
      exact (sum_take_set_mod_ne data length i 0 b hil hle hb).symm

/-- One byte changed at index 2, in arm 2: `0xCE` becomes `0xCD`. -/
theorem calculate_checksum_detects_change_witness :
    4 < UINT_RANGE ∧ 4 ≤ ([0x00, 0xAD, 0x01, 0x02] : List Byte).length ∧ 2 ≤ 2 ∧ 2 < 4
      ∧ (([0x00, 0xAD, 0x01, 0x02] : List Byte)[0]? = some 0xDE → 2 < 4)
      ∧ ([0x00, 0xAD, 0x01, 0x02] : List Byte)[2]? ≠ some 0x02
      ∧ ∃ v w : Nat,
          calculate_checksum [0x00, 0xAD, 0x01, 0x02] 4 = .ok v ∧
          calculate_checksum [0x00, 0xAD, 0x02, 0x02] 4 = .ok w ∧
          v ≠ w :=
  ⟨by decide, by decide, by decide, by decide, by decide, by decide,
    calculate_checksum_detects_change [0x00, 0xAD, 0x01, 0x02] 4 2 0x02
      (by decide) (by decide) (by decide) (by decide) (by decide) (by decide)⟩

/-- An appended zero byte is not mistaken for a magic value: a nonzero byte is
found at index `k` of `d ++ [0]` exactly when it is found at index `k` of `d`. -/
theorem getElem?_append_zero (d : List Byte) (k : Nat) (m : Byte) (hm : m ≠ 0) :
    (d ++ [(0 : Byte)])[k]? = some m ↔ d[k]? = some m := by
  by_cases hk : k < d.length
  · rw [List.getElem?_append_left hk]
  · have hnone : d[k]? = none := List.getElem?_eq_none (by omega)
    rw [List.getElem?_append_right (by omega), hnone]
    constructor
    · intro h
      cases hj : k - d.length with
      | zero => rw [hj] at h; exact absurd (Option.some.inj h).symm hm
      | succ j => rw [hj] at h; simp at h
    · intro h; cases h

/-- The guards of `d ++ [0]` with one more byte of length are the guards of `d`. -/
theorem guard_append_zero (d : List Byte) (k idx : Nat) (m : Byte) (hm : m ≠ 0)
    (hk : idx + 1 = k) :
    (k ≤ d.length + 1 ∧ (d ++ [(0 : Byte)])[idx]? = some m) ↔ (k ≤ d.length ∧ d[idx]? = some m) := by
  rw [getElem?_append_zero d idx m hm]
  constructor
  · rintro ⟨_, h⟩
    obtain ⟨hd, _⟩ := getElem?_eq_some_byte h
    exact ⟨by omega, h⟩
  · rintro ⟨h1, h⟩
    exact ⟨by omega, h⟩

/-- The first four bytes of `d ++ [0]` have the sum of the first four bytes of `d`. -/
theorem sum_take_four_append_zero (d : List Byte) :
    (((d ++ [(0 : Byte)]).take (min (d.length + 1) 4)).map Fin.val).sum
      = ((d.take (min d.length 4)).map Fin.val).sum := by
  by_cases h : 4 ≤ d.length
  · rw [Nat.min_eq_right (by omega), Nat.min_eq_right h, List.take_append_of_le_length h]
  · rw [Nat.min_eq_left (by omega), Nat.min_eq_left (by omega),
      List.take_of_length_le (by simp), List.take_of_length_le (Nat.le_refl _)]
    simp

/-- Claim C12 (appending a zero byte).  For every byte sequence `d`, the empty
one and the one-byte ones included, whose length plus one is an `unsigned int`:
`calculate_checksum (d ++ [0x00]) (|d| + 1)` returns the byte that
`calculate_checksum d |d|` returns, in each of the three arms. -/
theorem calculate_checksum_append_zero (d : List Byte) (h32 : d.length + 1 < UINT_RANGE) :
    ∃ v : Nat,
      calculate_checksum d d.length = .ok v ∧
      calculate_checksum (d ++ [(0 : Byte)]) (d.length + 1) = .ok v ∧
      calculate_checksum (d ++ [(0 : Byte)]) (d.length + 1) = calculate_checksum d d.length := by
  have h32d : d.length < UINT_RANGE := by omega
  have hlen : d.length + 1 ≤ (d ++ [(0 : Byte)]).length := by simp
  have g1 := guard_append_zero d 1 0 0xDE (by decide) rfl
  have g2 := guard_append_zero d 2 1 0xAD (by decide) rfl
  have htake : (d ++ [(0 : Byte)]).take (d.length + 1) = d ++ [(0 : Byte)] :=
    List.take_of_length_le (by simp)
  by_cases c1 : 1 ≤ d.length ∧ d[0]? = some 0xDE
  · have c1z := g1.mpr c1
    have hA := calculate_checksum_of_run (run_magic1 UINT_RANGE d d.length c1.1 (Nat.le_refl _)
      c1.2 (min_four_lt_UINT_RANGE _))
    have hB := calculate_checksum_of_run (run_magic1 UINT_RANGE (d ++ [(0 : Byte)])
      (d.length + 1) c1z.1 hlen c1z.2 (min_four_lt_UINT_RANGE _))
    simp only [sum_take_four_append_zero] at hB
    exact ⟨_, hA, hB, hB.trans hA.symm⟩
  · have c1z : ¬ (1 ≤ d.length + 1 ∧ (d ++ [(0 : Byte)])[0]? = some 0xDE) :=
      fun h => c1 (g1.mp h)
    by_cases c2 : 2 ≤ d.length ∧ d[1]? = some 0xAD
    · have c2z := g2.mpr c2
      have hA := calculate_checksum_of_run (run_magic2 UINT_RANGE d d.length h32d c2.1
        (Nat.le_refl _) (fun h => c1 ⟨by omega, h⟩) c2.2 h32d)
      have hB := calculate_checksum_of_run (run_magic2 UINT_RANGE (d ++ [(0 : Byte)])
        (d.length + 1) h32 c2z.1 hlen (fun h => c1z ⟨by omega, h⟩) c2z.2 h32)
      simp only [htake, List.foldl_append, List.foldl_cons, List.foldl_nil, Fin.val_zero,
        Nat.xor_zero] at hB
      simp only [List.take_length] at hA
      exact ⟨_, hA, hB, hB.trans hA.symm⟩
    · have c2z : ¬ (2 ≤ d.length + 1 ∧ (d ++ [(0 : Byte)])[1]? = some 0xAD) :=
        fun h => c2 (g2.mp h)
      have hA := calculate_checksum_of_run (run_default UINT_RANGE d d.length h32d
        (Nat.le_refl _) c1 c2 h32d)
      have hB := calculate_checksum_of_run (run_default UINT_RANGE (d ++ [(0 : Byte)])
        (d.length + 1) h32 hlen c1z c2z h32)
      simp only [htake, List.map_append, List.sum_append, List.map_cons, List.map_nil,
        List.sum_cons, List.sum_nil, Fin.val_zero, Nat.add_zero] at hB
      simp only [List.take_length] at hA
      exact ⟨_, hA, hB, hB.trans hA.symm⟩

/-- The empty sequence, a one-byte sequence in arm 1, and a sequence in arm 2. -/
theorem calculate_checksum_append_zero_witness :
    (([] : List Byte).length + 1 < UINT_RANGE ∧
      ∃ v : Nat, calculate_checksum [] 0 = .ok v ∧ calculate_checksum [0x00] 1 = .ok v ∧
        calculate_checksum [0x00] 1 = calculate_checksum [] 0)
    ∧ (([0xDE] : List Byte).length + 1 < UINT_RANGE ∧
      ∃ v : Nat, calculate_checksum [0xDE] 1 = .ok v ∧ calculate_checksum [0xDE, 0x00] 2 = .ok v ∧
        calculate_checksum [0xDE, 0x00] 2 = calculate_checksum [0xDE] 1)
    ∧ (([0x07, 0xAD, 0x01] : List Byte).length + 1 < UINT_RANGE ∧
      ∃ v : Nat, calculate_checksum [0x07, 0xAD, 0x01] 3 = .ok v ∧
        calculate_checksum [0x07, 0xAD, 0x01, 0x00] 4 = .ok v ∧
        calculate_checksum [0x07, 0xAD, 0x01, 0x00] 4
          = calculate_checksum [0x07, 0xAD, 0x01] 3) :=
  ⟨⟨by decide, calculate_checksum_append_zero [] (by decide)⟩,
    ⟨by decide, calculate_checksum_append_zero [0xDE] (by decide)⟩,
    ⟨by decide, calculate_checksum_append_zero [0x07, 0xAD, 0x01] (by decide)⟩⟩

/-- A sequence of at least two bytes is its first byte, its second byte and the
rest. -/
theorem eq_cons_cons_drop (d : List Byte) (h : 2 ≤ d.length) :
    ∃ (a b : Byte), d = a :: b :: d.drop 2 ∧ d[0]? = some a ∧ d[1]? = some b := by
  match d, h with
  | a :: b :: t, _ => exact ⟨a, b, rfl, by simp, by simp⟩

/-- The XOR of a sequence of bytes does not depend on their order. -/
theorem foldl_xor_perm {l1 l2 : List Byte} (hp : l1.Perm l2) (c : Nat) :
    l1.foldl (fun c b => c ^^^ b.val) c = l2.foldl (fun c b => c ^^^ b.val) c := by
  apply hp.foldl_eq'
  intro x _ y _ z
  show (z ^^^ x.val) ^^^ y.val = (z ^^^ y.val) ^^^ x.val
  rw [Nat.xor_assoc, Nat.xor_comm x.val y.val, ← Nat.xor_assoc]

/-- Claim C13 (order insensitivity outside arm 1).  For two byte sequences of the
same length `n ≥ 2` (`n` an `unsigned int`) with the same first byte, which is
not `0xDE`, the same second byte, and the bytes at indices `2..n-1` of the one a
permutation of those of the other, `calculate_checksum` returns the same byte
on both. -/
theorem calculate_checksum_perm_tail (d1 d2 : List Byte) (n : Nat)
    (h32 : n < UINT_RANGE) (hn : 2 ≤ n) (hl1 : d1.length = n) (hl2 : d2.length = n)
    (h0 : d1[0]? = d2[0]?) (hne : d1[0]? ≠ some 0xDE) (h1 : d1[1]? = d2[1]?)
    (hp : (d1.drop 2).Perm (d2.drop 2)) :
    ∃ v : Nat,
      calculate_checksum d1 n = .ok v ∧
      calculate_checksum d2 n = .ok v ∧
      calculate_checksum d1 n = calculate_checksum d2 n := by
  obtain ⟨a1, b1, e1, ha1, hb1⟩ := eq_cons_cons_drop d1 (by omega)
  obtain ⟨a2, b2, e2, ha2, hb2⟩ := eq_cons_cons_drop d2 (by omega)
  have ha : a1 = a2 := Option.some.inj (ha1.symm.trans (h0.trans ha2))
  have hb : b1 = b2 := Option.some.inj (hb1.symm.trans (h1.trans hb2))
  have ht1 : d1.take n = d1 := List.take_of_length_le (by omega)
  have ht2 : d2.take n = d2 := List.take_of_length_le (by omega)
  have hne2 : d2[0]? ≠ some 0xDE := by rw [← h0]; exact hne
  have c1 : ¬ (1 ≤ n ∧ d1[0]? = some 0xDE) := fun h => hne h.2
  have c1b : ¬ (1 ≤ n ∧ d2[0]? = some 0xDE) := fun h => hne2 h.2
  by_cases c2 : 2 ≤ n ∧ d1[1]? = some 0xAD
  · have hA := calculate_checksum_of_run (run_magic2 UINT_RANGE d1 n h32 hn (by omega) hne
      c2.2 h32)
    have hB := calculate_checksum_of_run (run_magic2 UINT_RANGE d2 n h32 hn (by omega) hne2
      (h1.symm.trans c2.2) h32)
    have hx : d1.foldl (fun c b => c ^^^ b.val) 0 = d2.foldl (fun c b => c ^^^ b.val) 0 := by
      rw [e1, e2, ha, hb]
      simp only [List.foldl_cons]
      exact foldl_xor_perm hp _
    simp only [ht1] at hA
    simp only [ht2, ← hx] at hB
    exact ⟨_, hA, hB, hA.trans hB.symm⟩
  · have c2b : ¬ (2 ≤ n ∧ d2[1]? = some 0xAD) := by rw [← h1]; exact c2
    have hA := calculate_checksum_of_run (run_default UINT_RANGE d1 n h32 (by omega) c1 c2 h32)
    have hB := calculate_checksum_of_run (run_default UINT_RANGE d2 n h32 (by omega) c1b c2b
      h32)
    have hs : (d1.map Fin.val).sum = (d2.map Fin.val).sum := by
      rw [e1, e2, ha, hb]
      simp only [List.map_cons, List.sum_cons]
      rw [(hp.map Fin.val).sum_eq]
    simp only [ht1] at hA
    simp only [ht2, ← hs] at hB
    exact ⟨_, hA, hB, hA.trans hB.symm⟩

/-- Two five-byte sequences in arm 2 whose last three bytes are rotated. -/
theorem calculate_checksum_perm_tail_witness :
    5 < UINT_RANGE ∧ 2 ≤ 5
      ∧ ([0x07, 0xAD, 0x01, 0x02, 0x03] : List Byte).length = 5
      ∧ ([0x07, 0xAD, 0x03, 0x01, 0x02] : List Byte).length = 5
      ∧ ([0x07, 0xAD, 0x01, 0x02, 0x03] : List Byte)[0]?
          = ([0x07, 0xAD, 0x03, 0x01, 0x02] : List Byte)[0]?
      ∧ ([0x07, 0xAD, 0x01, 0x02, 0x03] : List Byte)[0]? ≠ some 0xDE
      ∧ ([0x07, 0xAD, 0x01, 0x02, 0x03] : List Byte)[1]?
          = ([0x07, 0xAD, 0x03, 0x01, 0x02] : List Byte)[1]?
      ∧ (([0x07, 0xAD, 0x01, 0x02, 0x03] : List Byte).drop 2).Perm
          (([0x07, 0xAD, 0x03, 0x01, 0x02] : List Byte).drop 2)
      ∧ ∃ v : Nat,
          calculate_checksum [0x07, 0xAD, 0x01, 0x02, 0x03] 5 = .ok v ∧
          calculate_checksum [0x07, 0xAD, 0x03, 0x01, 0x02] 5 = .ok v ∧
          calculate_checksum [0x07, 0xAD, 0x01, 0x02, 0x03] 5
            = calculate_checksum [0x07, 0xAD, 0x03, 0x01, 0x02] 5 :=
  ⟨by decide, by decide, by decide, by decide, by decide, by decide, by decide, by decide,
    calculate_checksum_perm_tail [0x07, 0xAD, 0x01, 0x02, 0x03] [0x07, 0xAD, 0x03, 0x01, 0x02] 5
      (by decide) (by decide) (by decide) (by decide) (by decide) (by decide) (by decide)
      (by decide)⟩

end ExampleRaw
